import Mathlib

/-!
Verification development for the WDMSTool pipeline scripts.

The repository consists of five short Python scripts operating on tabular
photometric data.  This file gives a shallow embedding of the parts of the
code that the specification claims speak about:

* ms_data_process.py : process_phot_files (line-41 cleanup), the
  candidate classification of evaluate_candidates (relative residuals,
  population standard deviation, the 3-sigma test and the Vgfb cutoff),
  the good/bad copy phase, and the residual column of plot_flux_res;
* wd_ascii_vosa.py : the residual quantity of build_entries and the
  object-batching of write_batches;
* ms_ascii_vosa.py : FILTER_COLUMNS, the chunked exporter
  ms_ascii_noUV_VOSA and the sanity checks of main;
* wdms_data_process.py : clean_photometry, the per-row loop of plot_seds
  and dedup_theoretical with its regular-expression filename cleanup.

Conventions of the embedding:

* A scalar obtained with pandas to_numeric under coercion of errors is
  either a finite value or NaN; it is modelled as Option ℚ, with none
  standing for NaN.  NaN propagates through arithmetic and every ordered
  comparison with NaN is false, which is exactly how the Bool-valued
  tests below treat none.  Division by zero produces an infinity in
  numpy; the theorems therefore carry the hypothesis that no Flux cell
  is zero where that matters, so that ℚ division agrees with the code.
* numpy std is the square root of the population variance.  To stay in
  executable rational arithmetic, a comparison mu + 3 * std <= r is
  encoded by the equivalent rational condition
  mu <= r and 9 * var <= (r - mu) ^ 2; the lemma three_sigma_square_iff
  below proves this encoding exact over the reals.
* Files are modelled as their list of lines; a read that can raise is an
  Except value; directories are lists of names.
-/

/-! ## NaN-propagating scalar arithmetic (pandas numeric cells) -/

/-- Subtraction of two pandas numeric cells; NaN propagates. -/
def osub : Option ℚ → Option ℚ → Option ℚ
  | some a, some b => some (a - b)
  | _, _ => none

/-- Division of two pandas numeric cells; NaN propagates.  For a zero
divisor the code produces an infinity while ℚ yields 0; every theorem
using this function on possibly-zero divisors carries a nonzero-flux
hypothesis. -/
def odiv : Option ℚ → Option ℚ → Option ℚ
  | some a, some b => some (a / b)
  | _, _ => none

/-- Product of two pandas numeric cells; NaN propagates. -/
def omul : Option ℚ → Option ℚ → Option ℚ
  | some a, some b => some (a * b)
  | _, _ => none

/-- Arithmetic mean of a list of rationals, as numpy computes it for a
nonempty array. -/
def listMean (xs : List ℚ) : ℚ := xs.sum / xs.length

/-- Population variance, the square of numpy std.  numpy std of an empty
array is NaN, hence none. -/
def popVar (xs : List ℚ) : Option ℚ :=
  match xs with
  | [] => none
  | _ => some ((xs.map (fun x => (x - listMean xs) ^ 2)).sum / xs.length)

/-- The test 3 * std <= r used by evaluate_candidates, with std the square
root of the population variance v.  The square-root comparison is encoded
by its square (see three_sigma_square_iff); a NaN on either side makes the
test false, as in numpy. -/
def geThreeSigma (r v : Option ℚ) : Bool :=
  match r, v with
  | some r, some v => decide (0 ≤ r ∧ 9 * v ≤ r ^ 2)
  | _, _ => false

/-- The test mu + 3 * std <= r, the threshold shape asserted by claim C2
(and drawn by plot_flux_res around its hard-coded mean).  Encoded by its
square exactly as geThreeSigma. -/
def geMeanThreeSigma (r : Option ℚ) (mu : ℚ) (v : Option ℚ) : Bool :=
  match r, v with
  | some r, some v => decide (mu ≤ r ∧ 9 * v ≤ (r - mu) ^ 2)
  | _, _ => false

/-- Exactness of the squared encoding of the sigma threshold: over the
reals, for a nonnegative variance v, the comparison mu + 3 * sqrt v <= r
holds iff mu <= r and 9 * v <= (r - mu) ^ 2. -/
theorem three_sigma_square_iff (r mu v : ℝ) (hv : 0 ≤ v) :
    (mu + 3 * Real.sqrt v ≤ r) ↔ (mu ≤ r ∧ 9 * v ≤ (r - mu) ^ 2) := by
  have hs : 0 ≤ Real.sqrt v := Real.sqrt_nonneg v
  constructor
  · intro h
    have h1 : mu ≤ r := le_trans (by nlinarith) h
    refine ⟨h1, ?_⟩
    have h2 : 3 * Real.sqrt v ≤ r - mu := by linarith
    have h3 : (3 * Real.sqrt v) ^ 2 ≤ (r - mu) ^ 2 := by
      have := mul_self_le_mul_self (by positivity) h2
      nlinarith
    have h4 : (3 * Real.sqrt v) ^ 2 = 9 * v := by
      have := Real.sq_sqrt hv
      nlinarith
    linarith
  · rintro ⟨h1, h2⟩
    have h3 : Real.sqrt (9 * v) ≤ Real.sqrt ((r - mu) ^ 2) := Real.sqrt_le_sqrt h2
    have h4 : Real.sqrt ((r - mu) ^ 2) = r - mu := by
      rw [Real.sqrt_sq (by linarith)]
    have h5 : Real.sqrt (9 * v) = 3 * Real.sqrt v := by
      rw [show (9 : ℝ) * v = 3 ^ 2 * v by norm_num, Real.sqrt_mul (by positivity),
        Real.sqrt_sq (by norm_num)]
    linarith [h3, h4.le, h5.ge]

/-! ## Photometric table rows

A row of a *.bfit.phot.dat table as the evaluate_candidates claims use
it: Flux and FluxMod through to_numeric with coercion, the flag columns
carried as the integers the scripts compare against.  This simple row
model presumes the flag columns it consults are integer columns, the
placeholder-free normal case; the finer model that distinguishes raw
from dash-converted flag columns, needed to compare the three residual
helpers, is RawPhotRow in the claim C4 section below. -/

structure PhotRow where
  flux : Option ℚ
  fluxMod : Option ℚ
  fitted : Int
  fitExc : Int
  excess : Int
  upLim : Int
deriving DecidableEq

/-- The relative residual (Flux - FluxMod) / Flux of one row. -/
def relRes (r : PhotRow) : Option ℚ := odiv (osub r.flux r.fluxMod) r.flux

/-- evaluate_candidates, rows with index at least 2: the numpy where mask
Fitted == 1 and FitExc == 0 selects the relative residual, else NaN. -/
def evalTailResidual (r : PhotRow) : Option ℚ :=
  if r.fitted = 1 ∧ r.fitExc = 0 then relRes r else none

/-- The Residual column as evaluate_candidates builds it: rows 0 and 1 get
the relative residual unconditionally, rows from index 2 on get the masked
residual. -/
def evalResidualCol (rows : List PhotRow) : List (Option ℚ) :=
  (rows.take 2).map relRes ++ (rows.drop 2).map evalTailResidual

/-! ## evaluate_candidates classification -/

/-- The Vgfb cell of a bestfitp.dat results row as the float constructor
sees it: a finite number, the float NaN (the float call succeeds and every
comparison with it is false), or a value on which the float call raises. -/
inductive VgfbField where
  | num (q : ℚ)
  | nanv
  | unparseable
deriving DecidableEq

/-- One row of the bestfitp.dat results table. -/
structure ResultRow where
  object : String
  vgfb : VgfbField
deriving DecidableEq

/-- Row selection results_df where Object equals obj followed by iloc 0:
the first matching row, none when the selection is empty (the code turns
the resulting IndexError into a bad classification). -/
def lookupResultRow (results : List ResultRow) (obj : String) : Option ResultRow :=
  (results.filter (fun r => r.object == obj)).head?

/-- The square of numpy std of the Residual column from row 2 on, after
dropna, exactly as evaluate_candidates computes its std. -/
def residualVar (rows : List PhotRow) : Option ℚ :=
  popVar (((evalResidualCol rows).drop 2).filterMap id)

/-- The residual part of the good test of evaluate_candidates: all of the
first two entries of the Residual column are at least 3 * std. -/
def uvGood (rows : List PhotRow) : Bool :=
  ((evalResidualCol rows).take 2).all (fun r => geThreeSigma r (residualVar rows))

/-- The classification of evaluate_candidates for one candidate: the
residual test, then the Vgfb rule.  A missing results row (IndexError) or
a Vgfb on which float raises (ValueError, TypeError) forces bad; a finite
Vgfb of at least 15 forces bad; a NaN Vgfb leaves the residual verdict
unchanged because NaN >= 15 is false in Python. -/
def evaluateGood (rows : List PhotRow) (results : List ResultRow) (obj : String) : Bool :=
  match lookupResultRow results obj with
  | none => false
  | some row =>
    match row.vgfb with
    | VgfbField.num q => if 15 ≤ q then false else uvGood rows
    | VgfbField.nanv => uvGood rows
    | VgfbField.unparseable => false

/-! ## Claim-side predicates for C1 and C2, written from the wording of
the claims rather than from the code. -/

/-- Claim C1 wording: the relative residuals of the later rows, those with
Fitted equal 1 and FitExc equal 0, NaN values dropped. -/
def specLaterResiduals (rows : List PhotRow) : List ℚ :=
  ((rows.drop 2).filter (fun r => decide (r.fitted = 1 ∧ r.fitExc = 0))).filterMap relRes

/-- Claim C1 as stated: good iff both of the first two relative residuals
are at least 3 times the standard deviation of the later relative
residuals, and the Vgfb value of the results row parses as a number
strictly less than 15 (a NaN is not a number strictly less than 15); every
other case, a missing or unparseable Vgfb included, is bad. -/
def specGoodClaim (rows : List PhotRow) (results : List ResultRow) (obj : String) : Bool :=
  ((rows.take 2).all (fun r => geThreeSigma (relRes r) (popVar (specLaterResiduals rows)))) &&
  (match lookupResultRow results obj with
   | some row =>
     match row.vgfb with
     | VgfbField.num q => decide (q < 15)
     | _ => false
   | none => false)

/-- Claim C1 amended at its Vgfb clause, at the single point the code
forces: a Vgfb that parses to NaN does not trip the cutoff, so it leaves
the residual verdict in force. -/
def specGoodAmended (rows : List PhotRow) (results : List ResultRow) (obj : String) : Bool :=
  ((rows.take 2).all (fun r => geThreeSigma (relRes r) (popVar (specLaterResiduals rows)))) &&
  (match lookupResultRow results obj with
   | some row =>
     match row.vgfb with
     | VgfbField.num q => decide (q < 15)
     | VgfbField.nanv => true
     | VgfbField.unparseable => false
   | none => false)

/-- Mean of the later relative residuals, NaN when there are none; the
quantity claim C2 asserts the threshold is measured from. -/
def specLaterMean (rows : List PhotRow) : Option ℚ :=
  match specLaterResiduals rows with
  | [] => none
  | xs => some (listMean xs)

/-- Claim C2 as stated for the residual part of the good test: each UV
residual is compared against mean + 3 * std of the later residuals. -/
def specUVGoodMeanRule (rows : List PhotRow) : Bool :=
  (rows.take 2).all (fun r =>
    match specLaterMean rows with
    | some mu => geMeanThreeSigma (relRes r) mu (popVar (specLaterResiduals rows))
    | none => false)

/-- The constant mean_res of plot_flux_res: the code sets it to the
literal 0 and draws the 2 sigma and 3 sigma bands around it. -/
def plot_mean_res : ℚ := 0

/-! ## Structural lemmas about the residual columns -/

/-- The first two entries of the Residual column of evaluate_candidates
are the unconditional relative residuals of the first two rows. -/
theorem evalResidualCol_take (rows : List PhotRow) :
    (evalResidualCol rows).take 2 = (rows.take 2).map relRes := by
  rcases rows with _ | ⟨a, _ | ⟨b, l⟩⟩ <;> simp [evalResidualCol]

/-- From row 2 on, the Residual column of evaluate_candidates is the
masked residual of the corresponding row. -/
theorem evalResidualCol_drop (rows : List PhotRow) :
    (evalResidualCol rows).drop 2 = (rows.drop 2).map evalTailResidual := by
  rcases rows with _ | ⟨a, _ | ⟨b, l⟩⟩ <;> simp [evalResidualCol]

/-- Dropping the NaN entries of a masked column is the same as filtering
by the mask first and dropping NaN residuals afterwards. -/
theorem filterMap_id_map_ite (p : PhotRow → Prop) [DecidablePred p]
    (f : PhotRow → Option ℚ) (l : List PhotRow) :
    (l.map (fun r => if p r then f r else none)).filterMap id
      = (l.filter (fun r => decide (p r))).filterMap f := by
  induction l with
  | nil => simp
  | cons a l ih =>
    by_cases h : p a
    · cases hfa : f a <;> simp [h, hfa, ih]
    · simp [h, ih]

/-- The variance evaluate_candidates takes the std of is the variance of
the later relative residuals described by claim C1. -/
theorem residualVar_eq (rows : List PhotRow) :
    residualVar rows = popVar (specLaterResiduals rows) := by
  unfold residualVar specLaterResiduals
  rw [evalResidualCol_drop]
  rw [show evalTailResidual = (fun r => if r.fitted = 1 ∧ r.fitExc = 0 then relRes r else none) from rfl]
  rw [filterMap_id_map_ite]

/-- all over a mapped list, for maps that change the element type. -/
theorem list_all_map {α β : Type} (f : α → β) (p : β → Bool) (l : List α) :
    (l.map f).all p = l.all (fun x => p (f x)) := by
  induction l with
  | nil => rfl
  | cons a l ih => simp [ih]

/-- The residual part of the good test, rephrased over rows rather than
over the assembled column. -/
theorem uvGood_eq_rows (rows : List PhotRow) :
    uvGood rows
      = (rows.take 2).all (fun r => geThreeSigma (relRes r) (popVar (specLaterResiduals rows))) := by
  unfold uvGood
  rw [evalResidualCol_take, residualVar_eq, list_all_map]

/-! ## Claims C1 and C2 -/

/-- A four-row table whose first two relative residuals pass the 3-sigma
test (the two later masked residuals are equal, so the variance is 0), and
a results table whose Vgfb cell is NaN. -/
def c1Rows : List PhotRow :=
  [⟨some 1, some 0, 1, 0, 0, 0⟩,
   ⟨some 1, some 0, 1, 0, 0, 0⟩,
   ⟨some 1, some 1, 1, 0, 0, 0⟩,
   ⟨some 1, some 1, 1, 0, 0, 0⟩]

/-- Results table for the C1 counterexample: the matching row carries a
NaN Vgfb. -/
def c1Results : List ResultRow := [⟨"J0001", VgfbField.nanv⟩]

/-- C1, counterexample: on a table passing the residual test whose results
row has a NaN Vgfb, evaluate_candidates classifies the candidate good
(float succeeds on NaN and NaN >= 15 is false), while the claim as stated
requires a Vgfb parsing to a number strictly below 15 and therefore
classifies it bad. -/
theorem c1_claim_false_at_nan_vgfb :
    evaluateGood c1Rows c1Results "J0001" = true ∧
      specGoodClaim c1Rows c1Results "J0001" = false := by
  constructor
  · simp [c1Rows, c1Results, evaluateGood, lookupResultRow, uvGood,
      evalResidualCol, relRes, odiv, osub, evalTailResidual, residualVar,
      popVar, listMean, geThreeSigma]
  · simp [c1Rows, c1Results, specGoodClaim, lookupResultRow]

/-- C1, amended: the classification of evaluate_candidates is the claimed
residual-and-Vgfb rule with the single Vgfb amendment the code forces: a
Vgfb parsing to NaN does not trip the cutoff, so such a candidate is good
whenever its residual test passes.  The nonzero-flux hypothesis keeps the
rational division model faithful to the floating-point division of the
code. -/
theorem c1_evaluate_candidates_amended (rows : List PhotRow)
    (results : List ResultRow) (obj : String)
    (hf : ∀ r ∈ rows, r.flux ≠ some 0) :
    evaluateGood rows results obj = specGoodAmended rows results obj := by
  unfold evaluateGood specGoodAmended
  rw [← uvGood_eq_rows]
  cases lookupResultRow results obj with
  | none => simp
  | some row =>
    rcases row with ⟨o, v⟩
    cases v with
    | num q =>
      by_cases hq : 15 ≤ q
      · simp [hq, not_lt.mpr hq]
      · simp [hq, lt_of_not_le hq]
    | nanv => simp
    | unparseable => simp

/-- C1, witness: the amended equivalence applied to the concrete table and
results row used above. -/
theorem c1_evaluate_candidates_amended_witness :
    (∀ r ∈ c1Rows, r.flux ≠ some 0) ∧
      evaluateGood c1Rows c1Results "J0001" = specGoodAmended c1Rows c1Results "J0001" := by
  have hf : ∀ r ∈ c1Rows, r.flux ≠ some 0 := by
    intro r hr
    simp only [c1Rows, List.mem_cons, List.not_mem_nil, or_false] at hr
    rcases hr with rfl | rfl | rfl | rfl <;> simp
  exact ⟨hf, c1_evaluate_candidates_amended c1Rows c1Results "J0001" hf⟩

/-- A table for the C2 counterexample: the first two relative residuals
are 1/5, the two later masked residuals are both 1/2, so the residual
standard deviation is 0 while the residual mean is 1/2. -/
def c2Rows : List PhotRow :=
  [⟨some 5, some 4, 1, 0, 0, 0⟩,
   ⟨some 5, some 4, 1, 0, 0, 0⟩,
   ⟨some 2, some 1, 1, 0, 0, 0⟩,
   ⟨some 2, some 1, 1, 0, 0, 0⟩]

/-- C2, counterexample: on the table above the good test of
evaluate_candidates accepts the UV residuals (1/5 is at least 3 * 0),
while the rule claimed by C2, comparing against mean + 3 * std = 1/2,
rejects them; the threshold is therefore not measured from the computed
mean of the residuals. -/
theorem c2_claim_false_at_nonzero_mean :
    uvGood c2Rows = true ∧ specUVGoodMeanRule c2Rows = false := by
  constructor
  · simp [c2Rows, uvGood, evalResidualCol, relRes, odiv, osub,
      evalTailResidual, residualVar, popVar, listMean, geThreeSigma]
    norm_num
  · simp [c2Rows, specUVGoodMeanRule, specLaterMean, specLaterResiduals,
      relRes, odiv, osub, popVar, listMean, geMeanThreeSigma]
    norm_num

/-- The 3-sigma test of evaluate_candidates is the threshold mu + 3 * std
with the mean taken to be the constant 0, exactly the hard-coded mean_res
of plot_flux_res. -/
theorem geThreeSigma_eq_mean_zero (r v : Option ℚ) :
    geThreeSigma r v = geMeanThreeSigma r plot_mean_res v := by
  cases r <;> cases v <;> simp [geThreeSigma, geMeanThreeSigma, plot_mean_res]

/-- C2, amended: the good test of evaluate_candidates compares each UV
residual against mean_res + 3 * std where mean_res is the constant 0 that
plot_flux_res hard-codes, not the computed mean of the residuals. -/
theorem c2_threshold_uses_zero_mean (rows : List PhotRow) :
    uvGood rows
      = ((evalResidualCol rows).take 2).all
          (fun r => geMeanThreeSigma r plot_mean_res (residualVar rows)) := by
  unfold uvGood
  congr 1
  funext r
  exact geThreeSigma_eq_mean_zero r (residualVar rows)

/-! ## Claim C4: the three residual computations

The three scripts do not convert the same flag columns before masking:
build_entries replaces the dashes placeholder by 0 and casts to int on
all four of FitExc, UpLim, Excess and Fitted; plot_flux_res converts
only FitExc and UpLim and compares Fitted and Excess raw;
evaluate_candidates converts only FitExc and compares Fitted raw.  A raw
comparison sees the column as pandas read it: an integer column when no
cell is the placeholder, otherwise an object column of strings on which
an elementwise == against an integer is false everywhere.  The model
below therefore keeps the flag cells raw and decides each comparison
from the whole column. -/

/-- A cell of a flag column as it stands in the file: an integer token
or the dashes placeholder. -/
inductive RawCell where
  | intVal (n : Int)
  | dash
deriving DecidableEq

/-- replace of the dashes placeholder by 0 followed by astype int. -/
def convFlag : RawCell → Int
  | RawCell.intVal n => n
  | RawCell.dash => 0

/-- A photometric row with its flag cells kept raw. -/
structure RawPhotRow where
  flux : Option ℚ
  fluxMod : Option ℚ
  fitted : RawCell
  fitExc : RawCell
  excess : RawCell
  upLim : RawCell
deriving DecidableEq

/-- Whether a whole flag column is read as an integer column: pandas
gives the column the int dtype only when no cell is the placeholder. -/
def colIsNumeric (rows : List RawPhotRow) (proj : RawPhotRow → RawCell) : Bool :=
  rows.all (fun r =>
    match proj r with
    | RawCell.intVal _ => true
    | RawCell.dash => false)

/-- The elementwise comparison of an unconverted column against the
integer k, at row r: on an integer column it compares the integers; on
an object column every cell is a string and the comparison is false. -/
def rawFlagEq (rows : List RawPhotRow) (proj : RawPhotRow → RawCell)
    (r : RawPhotRow) (k : Int) : Bool :=
  colIsNumeric rows proj && (proj r == RawCell.intVal k)

/-- The relative residual (Flux - FluxMod) / Flux of one raw row. -/
def rawRelRes (r : RawPhotRow) : Option ℚ := odiv (osub r.flux r.fluxMod) r.flux

/-- evaluate_candidates, rows from index 2 on, over the raw table:
Fitted is compared raw, FitExc converted. -/
def evalTailResidualRaw (rows : List RawPhotRow) (r : RawPhotRow) : Option ℚ :=
  if rawFlagEq rows RawPhotRow.fitted r 1 = true ∧ convFlag r.fitExc = 0 then
    rawRelRes r
  else none

/-- The Residual column of evaluate_candidates over the raw table. -/
def evalResidualColRaw (rows : List RawPhotRow) : List (Option ℚ) :=
  (rows.take 2).map rawRelRes ++ (rows.drop 2).map (evalTailResidualRaw rows)

/-- plot_flux_res, rows from index 2 on: Fitted and Excess are compared
raw, UpLim and FitExc converted. -/
def plotTailResidualRaw (rows : List RawPhotRow) (r : RawPhotRow) : Option ℚ :=
  if rawFlagEq rows RawPhotRow.fitted r 1 = true ∧
      rawFlagEq rows RawPhotRow.excess r 0 = true ∧
      convFlag r.upLim = 0 ∧ convFlag r.fitExc = 0 then
    rawRelRes r
  else none

/-- The Residual column of plot_flux_res over the raw table. -/
def plotResidualColRaw (rows : List RawPhotRow) : List (Option ℚ) :=
  (rows.take 2).map rawRelRes ++ (rows.drop 2).map (plotTailResidualRaw rows)

/-- build_entries, rows 0 and 1: the unnormalized difference
Flux - FluxMod. -/
def buildHeadResidualRaw (r : RawPhotRow) : Option ℚ := osub r.flux r.fluxMod

/-- build_entries, rows from index 2 on: all four flag columns are
converted before the mask, and the value is the unnormalized
difference. -/
def buildTailResidualRaw (r : RawPhotRow) : Option ℚ :=
  if convFlag r.fitted = 1 ∧ convFlag r.excess = 0 ∧
      convFlag r.upLim = 0 ∧ convFlag r.fitExc = 0 then
    osub r.flux r.fluxMod
  else none

/-- The Residual column of build_entries over the raw table (before its
final dropna row filter). -/
def buildResidualColRaw (rows : List RawPhotRow) : List (Option ℚ) :=
  (rows.take 2).map buildHeadResidualRaw ++ (rows.drop 2).map buildTailResidualRaw

/-- A placeholder-free table separating the three computations: the
first two rows have residual 1/2 relative and 1 absolute, the third row
carries an upper limit, which plot_flux_res and build_entries mask out
but evaluate_candidates does not. -/
def c4Rows : List RawPhotRow :=
  [⟨some 2, some 1, RawCell.intVal 1, RawCell.intVal 0, RawCell.intVal 0, RawCell.intVal 0⟩,
   ⟨some 2, some 1, RawCell.intVal 1, RawCell.intVal 0, RawCell.intVal 0, RawCell.intVal 0⟩,
   ⟨some 2, some 1, RawCell.intVal 1, RawCell.intVal 0, RawCell.intVal 0, RawCell.intVal 1⟩]

/-- A table whose third row has the dashes placeholder in its Excess
cell: the Excess column is then an object column, plot_flux_res's raw
comparison Excess == 0 is false on every row, while build_entries'
converted Excess is 0, so their masks genuinely differ. -/
def c4DashRows : List RawPhotRow :=
  [⟨some 2, some 1, RawCell.intVal 1, RawCell.intVal 0, RawCell.intVal 0, RawCell.intVal 0⟩,
   ⟨some 2, some 1, RawCell.intVal 1, RawCell.intVal 0, RawCell.intVal 0, RawCell.intVal 0⟩,
   ⟨some 2, some 1, RawCell.intVal 1, RawCell.intVal 0, RawCell.dash, RawCell.intVal 0⟩]

/-- C4, counterexample: the Residual columns of evaluate_candidates,
plot_flux_res and build_entries disagree, so the residual computation is
not the same logic in each copy.  On the placeholder-free table the
evaluate_candidates mask ignores UpLim and build_entries exports the
unnormalized difference; on the dashed table even the masks of
plot_flux_res and build_entries differ, because build_entries converts
the Excess column that plot_flux_res compares raw. -/
theorem c4_claim_false_residuals_differ :
    (evalResidualColRaw c4Rows ≠ plotResidualColRaw c4Rows ∧
      buildResidualColRaw c4Rows ≠ plotResidualColRaw c4Rows) ∧
      (buildResidualColRaw c4DashRows ≠ plotResidualColRaw c4DashRows ∧
        evalResidualColRaw c4DashRows ≠ plotResidualColRaw c4DashRows) := by
  refine ⟨⟨?_, ?_⟩, ?_, ?_⟩
  · intro h
    have h2 := congrArg (fun l => l.get? 2) h
    simp [c4Rows, evalResidualColRaw, plotResidualColRaw, evalTailResidualRaw,
      plotTailResidualRaw, rawFlagEq, colIsNumeric, convFlag, rawRelRes,
      odiv, osub] at h2
  · intro h
    have h0 := congrArg (fun l => l.get? 0) h
    simp [c4Rows, buildResidualColRaw, plotResidualColRaw, buildHeadResidualRaw,
      rawRelRes, odiv, osub] at h0
    norm_num at h0
  · intro h
    have h2 := congrArg (fun l => l.get? 2) h
    simp [c4DashRows, buildResidualColRaw, plotResidualColRaw, buildTailResidualRaw,
      plotTailResidualRaw, rawFlagEq, colIsNumeric, convFlag, rawRelRes,
      odiv, osub] at h2
  · intro h
    have h2 := congrArg (fun l => l.get? 2) h
    simp [c4DashRows, evalResidualColRaw, plotResidualColRaw, evalTailResidualRaw,
      plotTailResidualRaw, rawFlagEq, colIsNumeric, convFlag, rawRelRes,
      odiv, osub] at h2

/-- The first two entries of the plot_flux_res Residual column are the
unconditional relative residuals. -/
theorem plotResidualColRaw_take (rows : List RawPhotRow) :
    (plotResidualColRaw rows).take 2 = (rows.take 2).map rawRelRes := by
  rcases rows with _ | ⟨a, _ | ⟨b, l⟩⟩ <;> simp [plotResidualColRaw]

/-- The first two entries of the evaluate_candidates Residual column are
the unconditional relative residuals. -/
theorem evalResidualColRaw_take (rows : List RawPhotRow) :
    (evalResidualColRaw rows).take 2 = (rows.take 2).map rawRelRes := by
  rcases rows with _ | ⟨a, _ | ⟨b, l⟩⟩ <;> simp [evalResidualColRaw]

/-- Forall₂ between two maps of the same list, from a pointwise fact. -/
theorem forall2_map_pair {α β γ : Type} (P : β → γ → Prop) (f : α → β)
    (g : α → γ) (l : List α) (h : ∀ x ∈ l, P (f x) (g x)) :
    List.Forall₂ P (l.map f) (l.map g) := by
  induction l with
  | nil => exact List.Forall₂.nil
  | cons a l ih =>
    exact List.Forall₂.cons (h a (by simp)) (ih (fun x hx => h x (by simp [hx])))

/-- Forall₂ is compatible with appending. -/
theorem forall2_append_pair {β γ : Type} (P : β → γ → Prop)
    {l₁ l₃ : List β} {l₂ l₄ : List γ} (h : List.Forall₂ P l₁ l₂)
    (h' : List.Forall₂ P l₃ l₄) : List.Forall₂ P (l₁ ++ l₃) (l₂ ++ l₄) := by
  induction h with
  | nil => exact h'
  | cons hab _ ih => exact List.Forall₂.cons hab ih

/-- zipWith of a function against a map of the same list is a map. -/
theorem zipWith_map_self {α β γ : Type} (f : α → β → γ) (g : α → β)
    (l : List α) : List.zipWith f l (l.map g) = l.map (fun x => f x (g x)) := by
  induction l with
  | nil => rfl
  | cons a l ih => simp [ih]

/-- Multiplying a row's relative residual back by its flux recovers the
unnormalized difference Flux - FluxMod, provided the flux is not zero. -/
theorem omul_flux_rawRelRes (r : RawPhotRow) (hf : r.flux ≠ some 0) :
    omul r.flux (rawRelRes r) = osub r.flux r.fluxMod := by
  rcases hr : r.flux with _ | a
  · simp [omul, rawRelRes, osub, odiv, hr]
  · rcases hm : r.fluxMod with _ | b
    · simp [omul, rawRelRes, osub, odiv, hr, hm]
    · have ha : a ≠ 0 := by
        intro h
        exact hf (by rw [hr, h])
      simp only [omul, rawRelRes, osub, odiv, hr, hm]
      rw [mul_comm, div_mul_cancel₀ _ ha]

/-- On an integer column, the raw elementwise comparison against k and
the comparison of the converted value against k agree at every row of
the table. -/
theorem rawFlagEq_of_numeric (rows : List RawPhotRow)
    (proj : RawPhotRow → RawCell) (r : RawPhotRow) (k : Int) (hr : r ∈ rows)
    (hcol : colIsNumeric rows proj = true) :
    rawFlagEq rows proj r k = true ↔ convFlag (proj r) = k := by
  unfold rawFlagEq
  rw [hcol]
  have hint := List.all_eq_true.mp hcol r hr
  cases hp : proj r with
  | intVal n => simp [convFlag]
  | dash =>
    rw [hp] at hint
    simp at hint

/-- Splitting lemma for the build_entries column over a table whose
Fitted and Excess columns are placeholder-free: against the split table,
the zip of fluxes with the plot_flux_res residuals is the build_entries
column. -/
theorem build_zip_split_raw (rows t d : List RawPhotRow)
    (ht : ∀ r ∈ t, r ∈ rows) (hd : ∀ r ∈ d, r ∈ rows)
    (hf : ∀ r ∈ rows, r.flux ≠ some 0)
    (hft : colIsNumeric rows RawPhotRow.fitted = true)
    (hex : colIsNumeric rows RawPhotRow.excess = true) :
    t.map buildHeadResidualRaw ++ d.map buildTailResidualRaw
      = List.zipWith (fun r v => omul r.flux v) (t ++ d)
          (t.map rawRelRes ++ d.map (plotTailResidualRaw rows)) := by
  rw [List.zipWith_append _ _ _ _ _ (by simp), zipWith_map_self, zipWith_map_self]
  congr 1
  · exact List.map_congr_left
      (fun x hx => (omul_flux_rawRelRes x (hf x (ht x hx))).symm)
  · refine List.map_congr_left (fun x hx => ?_)
    have hmem := hd x hx
    by_cases hm : convFlag x.fitted = 1 ∧ convFlag x.excess = 0 ∧
        convFlag x.upLim = 0 ∧ convFlag x.fitExc = 0
    · have hm2 : rawFlagEq rows RawPhotRow.fitted x 1 = true ∧
          rawFlagEq rows RawPhotRow.excess x 0 = true ∧
          convFlag x.upLim = 0 ∧ convFlag x.fitExc = 0 :=
        ⟨(rawFlagEq_of_numeric rows RawPhotRow.fitted x 1 hmem hft).mpr hm.1,
         (rawFlagEq_of_numeric rows RawPhotRow.excess x 0 hmem hex).mpr hm.2.1,
         hm.2.2.1, hm.2.2.2⟩
      unfold buildTailResidualRaw plotTailResidualRaw
      rw [if_pos hm, if_pos hm2]
      exact (omul_flux_rawRelRes x (hf x hmem)).symm
    · have hm2 : ¬(rawFlagEq rows RawPhotRow.fitted x 1 = true ∧
          rawFlagEq rows RawPhotRow.excess x 0 = true ∧
          convFlag x.upLim = 0 ∧ convFlag x.fitExc = 0) := by
        intro hc
        exact hm ⟨(rawFlagEq_of_numeric rows RawPhotRow.fitted x 1 hmem hft).mp hc.1,
          (rawFlagEq_of_numeric rows RawPhotRow.excess x 0 hmem hex).mp hc.2.1,
          hc.2.2.1, hc.2.2.2⟩
      unfold buildTailResidualRaw plotTailResidualRaw
      rw [if_neg hm, if_neg hm2]
      cases x.flux <;> simp [omul]

/-- C4, amended: the three residual helpers are related but not one
duplicated logic.  Unconditionally, evaluate_candidates and
plot_flux_res agree on the first two rows, and wherever plot_flux_res
produces a later-row value evaluate_candidates produces the same one
(its mask ignores Excess and UpLim, so it fires at more rows, and both
compare Fitted raw).  The build_entries column is the plot_flux_res
column scaled back by Flux only on tables whose Fitted and Excess
columns carry no dashes placeholder: build_entries converts those two
columns while plot_flux_res compares them raw, so on a placeholder-laden
table their masks differ (see the counterexample).  The nonzero-flux
hypothesis keeps the rational division model faithful. -/
theorem c4_residuals_amended (rows : List RawPhotRow)
    (hf : ∀ r ∈ rows, r.flux ≠ some 0) :
    (plotResidualColRaw rows).take 2 = (evalResidualColRaw rows).take 2 ∧
      List.Forall₂ (fun pv ev => pv ≠ none → ev = pv)
        (plotResidualColRaw rows) (evalResidualColRaw rows) ∧
      (colIsNumeric rows RawPhotRow.fitted = true →
        colIsNumeric rows RawPhotRow.excess = true →
        buildResidualColRaw rows
          = List.zipWith (fun r v => omul r.flux v) rows (plotResidualColRaw rows)) := by
  refine ⟨by rw [plotResidualColRaw_take, evalResidualColRaw_take], ?_, ?_⟩
  · unfold plotResidualColRaw evalResidualColRaw
    refine forall2_append_pair _ (forall2_map_pair _ _ _ _ (fun x _ h => rfl)) ?_
    refine forall2_map_pair _ _ _ _ (fun x _ h => ?_)
    unfold plotTailResidualRaw at h ⊢
    unfold evalTailResidualRaw
    by_cases hm : rawFlagEq rows RawPhotRow.fitted x 1 = true ∧
        rawFlagEq rows RawPhotRow.excess x 0 = true ∧
        convFlag x.upLim = 0 ∧ convFlag x.fitExc = 0
    · rw [if_pos hm, if_pos ⟨hm.1, hm.2.2.2⟩]
    · rw [if_neg hm] at h
      exact absurd rfl h
  · intro hft hex
    unfold buildResidualColRaw plotResidualColRaw
    have key := build_zip_split_raw rows (rows.take 2) (rows.drop 2)
      (fun r hr => List.mem_of_mem_take hr) (fun r hr => List.mem_of_mem_drop hr)
      hf hft hex
    rw [List.take_append_drop] at key
    exact key

/-- C4, witness: the amended relations applied to the placeholder-free
concrete table of the counterexample, with the numeric-column conditions
of the build conjunct discharged there. -/
theorem c4_residuals_amended_witness :
    (∀ r ∈ c4Rows, r.flux ≠ some 0) ∧
      colIsNumeric c4Rows RawPhotRow.fitted = true ∧
      colIsNumeric c4Rows RawPhotRow.excess = true ∧
      (plotResidualColRaw c4Rows).take 2 = (evalResidualColRaw c4Rows).take 2 ∧
      buildResidualColRaw c4Rows
        = List.zipWith (fun r v => omul r.flux v) c4Rows (plotResidualColRaw c4Rows) := by
  have hf : ∀ r ∈ c4Rows, r.flux ≠ some 0 := by
    intro r hr
    simp only [c4Rows, List.mem_cons, List.not_mem_nil, or_false] at hr
    rcases hr with rfl | rfl | rfl <;> simp
  have h := c4_residuals_amended c4Rows hf
  exact ⟨hf, rfl, rfl, h.1, h.2.2 rfl rfl⟩

/-! ## Claim C3: the good/bad copy phase of evaluate_candidates -/

/-- os.path.basename of a path: the characters after the last slash. -/
def basename (p : String) : String :=
  String.mk ((p.toList.reverse.takeWhile (fun c => c ≠ '/')).reverse)

/-- good_count of evaluate_candidates: the sum of the boolean
classification flags. -/
def goodCount (cls : List (String × Bool)) : ℕ := cls.countP (fun c => c.2)

/-- bad_count of evaluate_candidates: the total minus the good count. -/
def badCount (cls : List (String × Bool)) : ℕ := cls.length - goodCount cls

/-- Name of the good-candidates result directory. -/
def gcDirName (cls : List (String × Bool)) : String :=
  toString (goodCount cls) ++ "_gc"

/-- Name of the bad-candidates result directory. -/
def bcDirName (cls : List (String × Bool)) : String :=
  toString (badCount cls) ++ "_bc"

/-- One copy step of phase 3 of evaluate_candidates: the object folder is
copied into the good or the bad objects tree according to its flag, the
copy skipped when a folder of that basename already sits in the target
tree.  The state is the pair of basename lists of the two trees. -/
def copyStep (acc : List String × List String) (c : String × Bool) :
    List String × List String :=
  if c.2 then
    (if basename c.1 ∈ acc.1 then acc.1 else acc.1 ++ [basename c.1], acc.2)
  else
    (acc.1, if basename c.1 ∈ acc.2 then acc.2 else acc.2 ++ [basename c.1])

/-- The whole copy phase, starting from the two freshly created empty
objects directories. -/
def copyPhase (cls : List (String × Bool)) : List String × List String :=
  cls.foldl copyStep ([], [])

/-- Counting both flags splits the length. -/
theorem countP_flag_split (cls : List (String × Bool)) :
    cls.countP (fun c => c.2) + cls.countP (fun c => !c.2) = cls.length := by
  induction cls with
  | nil => rfl
  | cons a l ih => by_cases h : a.2 <;> simp [h, List.countP_cons] <;> omega

/-- Closed form of the copy phase under distinct basenames: the two trees
receive exactly the basenames of the good and of the bad entries. -/
theorem copyPhase_aux (cls : List (String × Bool)) :
    ∀ acc : List String × List String,
      (cls.map (fun c => basename c.1)).Nodup →
      (∀ c ∈ cls, basename c.1 ∉ acc.1 ∧ basename c.1 ∉ acc.2) →
      cls.foldl copyStep acc
        = (acc.1 ++ (cls.filter (fun c => c.2)).map (fun c => basename c.1),
           acc.2 ++ (cls.filter (fun c => !c.2)).map (fun c => basename c.1)) := by
  induction cls with
  | nil => intro acc _ _; simp
  | cons a cls ih =>
    intro acc hnd hfresh
    have hna := hfresh a (by simp)
    have hnd' : (cls.map (fun c => basename c.1)).Nodup := (List.nodup_cons.mp hnd).2
    have hhead : basename a.1 ∉ cls.map (fun c => basename c.1) :=
      (List.nodup_cons.mp hnd).1
    by_cases h : a.2
    · have hstep : copyStep acc a = (acc.1 ++ [basename a.1], acc.2) := by
        simp [copyStep, h, hna.1]
      rw [List.foldl_cons, hstep,
        ih (acc.1 ++ [basename a.1], acc.2) hnd' ?_]
      · simp [h, List.append_assoc]
      · intro c hc
        refine ⟨?_, (hfresh c (by simp [hc])).2⟩
        simp only [List.mem_append, List.mem_singleton]
        rintro (hin | heq)
        · exact (hfresh c (by simp [hc])).1 hin
        · exact hhead (heq ▸ List.mem_map_of_mem (fun c => basename c.1) hc)
    · have hstep : copyStep acc a = (acc.1, acc.2 ++ [basename a.1]) := by
        simp [copyStep, h, hna.2]
      rw [List.foldl_cons, hstep,
        ih (acc.1, acc.2 ++ [basename a.1]) hnd' ?_]
      · simp [h, List.append_assoc]
      · intro c hc
        refine ⟨(hfresh c (by simp [hc])).1, ?_⟩
        simp only [List.mem_append, List.mem_singleton]
        rintro (hin | heq)
        · exact (hfresh c (by simp [hc])).2 hin
        · exact hhead (heq ▸ List.mem_map_of_mem (fun c => basename c.1) hc)

/-- C3: after the copy phase every classified object directory sits in
exactly one of the two trees, the good tree iff its flag is good, and the
counts in the result directory names '<n>_gc' and '<m>_bc' are the number
of good and of bad candidates and add up to the number of candidates.
The basenames of the classified object directories are assumed pairwise
distinct, as they are when each object folder holds one photometry
file. -/
theorem c3_copy_partition (cls : List (String × Bool))
    (hnd : (cls.map (fun c => basename c.1)).Nodup) :
    goodCount cls + badCount cls = cls.length ∧
      goodCount cls = (cls.filter (fun c => c.2)).length ∧
      badCount cls = (cls.filter (fun c => !c.2)).length ∧
      gcDirName cls = toString (goodCount cls) ++ "_gc" ∧
      bcDirName cls = toString (badCount cls) ++ "_bc" ∧
      (∀ c ∈ cls,
        (c.2 = true →
          basename c.1 ∈ (copyPhase cls).1 ∧ basename c.1 ∉ (copyPhase cls).2) ∧
        (c.2 = false →
          basename c.1 ∈ (copyPhase cls).2 ∧ basename c.1 ∉ (copyPhase cls).1)) := by
  have hsplit := countP_flag_split cls
  have hgood : goodCount cls ≤ cls.length := by
    unfold goodCount; omega
  have hbad : badCount cls = cls.countP (fun c => !c.2) := by
    unfold badCount goodCount; omega
  have hclosed := copyPhase_aux cls ([], []) hnd (by intro c _; simp)
  have hcp : copyPhase cls
      = ((cls.filter (fun c => c.2)).map (fun c => basename c.1),
         (cls.filter (fun c => !c.2)).map (fun c => basename c.1)) := by
    unfold copyPhase
    rw [hclosed]
    simp
  refine ⟨by unfold badCount; omega,
    by unfold goodCount; rw [List.countP_eq_length_filter],
    by rw [hbad, List.countP_eq_length_filter],
    rfl, rfl, ?_⟩
  intro c hc
  constructor
  · intro hcgood
    rw [hcp]
    constructor
    · exact List.mem_map_of_mem _ (List.mem_filter.mpr ⟨hc, hcgood⟩)
    · intro hmem
      rcases List.mem_map.mp hmem with ⟨d, hd, hdb⟩
      have hdcls : d ∈ cls := (List.mem_filter.mp hd).1
      have hdbad : d.2 = false := by
        have := (List.mem_filter.mp hd).2
        simpa using this
      have : d = c := List.inj_on_of_nodup_map hnd hdcls hc hdb
      rw [this] at hdbad
      rw [hcgood] at hdbad
      simp at hdbad
  · intro hcbad
    rw [hcp]
    constructor
    · refine List.mem_map_of_mem _ (List.mem_filter.mpr ⟨hc, by simp [hcbad]⟩)
    · intro hmem
      rcases List.mem_map.mp hmem with ⟨d, hd, hdb⟩
      have hdcls : d ∈ cls := (List.mem_filter.mp hd).1
      have hdgood : d.2 = true := (List.mem_filter.mp hd).2
      have : d = c := List.inj_on_of_nodup_map hnd hdcls hc hdb
      rw [this] at hdgood
      rw [hcbad] at hdgood
      simp at hdgood

/-- C3, witness: the partition applied to a concrete two-candidate
classification, one good and one bad. -/
theorem c3_copy_partition_witness :
    (([("data/objects/J1", true), ("data/objects/J2", false)].map
        (fun c => basename c.1)).Nodup) ∧
      (goodCount [("data/objects/J1", true), ("data/objects/J2", false)]
          + badCount [("data/objects/J1", true), ("data/objects/J2", false)]
          = 2 ∧
        basename "data/objects/J1"
          ∈ (copyPhase [("data/objects/J1", true), ("data/objects/J2", false)]).1) := by
  have hnd : (([("data/objects/J1", true), ("data/objects/J2", false)]).map
      (fun c => basename c.1)).Nodup := by decide
  have h := c3_copy_partition
    [("data/objects/J1", true), ("data/objects/J2", false)] hnd
  refine ⟨hnd, h.1, ?_⟩
  have := (h.2.2.2.2.2 ("data/objects/J1", true) (by simp)).1 rfl
  exact this.1

/-! ## Claim C5: process_phot_files line cleanup -/

/-- Python lstrip applied with the hash character: drop every leading
hash. -/
def lstripHash (s : String) : String :=
  String.mk (s.toList.dropWhile (fun c => c = '#'))

/-- The per-file transformation of process_phot_files: with at least 41
lines, line index 40 is lstripped of hashes in place; otherwise the file
is left alone. -/
def processPhotLines (lines : List String) : List String :=
  if 41 ≤ lines.length then lines.set 40 (lstripHash (lines.getD 40 "")) else lines

/-- C5: process_phot_files rewrites a file of at least 41 lines with the
leading hashes stripped from line 41 only, every other line unchanged, and
leaves a shorter file entirely unchanged. -/
theorem c5_process_phot_lines (lines : List String) :
    (processPhotLines lines).length = lines.length ∧
      (41 ≤ lines.length →
        (processPhotLines lines)[40]? = some (lstripHash (lines.getD 40 "")) ∧
          ∀ i, i ≠ 40 → (processPhotLines lines)[i]? = lines[i]?) ∧
      (lines.length < 41 → processPhotLines lines = lines) := by
  unfold processPhotLines
  by_cases h : 41 ≤ lines.length
  · simp only [h, if_true]
    refine ⟨List.length_set lines 40 _, fun _ => ⟨?_, fun i hi => ?_⟩,
      fun habs => absurd h (by omega)⟩
    · rw [List.getElem?_set_self']
      have : lines[40]? = some (lines.getD 40 "") := by
        rw [List.getD_eq_getElem?_getD]
        cases h40 : lines[40]? with
        | none =>
          rw [List.getElem?_eq_none_iff] at h40
          omega
        | some v => simp
      rw [this]
      rfl
    · exact List.getElem?_set_ne (fun heq => hi heq.symm)
  · simp [h]

/-- C5, witness: a concrete 41-line file whose line 41 starts with two
hashes. -/
theorem c5_process_phot_lines_witness :
    41 ≤ (List.replicate 40 "x" ++ ["##y"]).length ∧
      (processPhotLines (List.replicate 40 "x" ++ ["##y"]))[40]?
        = some (lstripHash ((List.replicate 40 "x" ++ ["##y"]).getD 40 "")) := by
  refine ⟨by simp, ?_⟩
  exact ((c5_process_phot_lines (List.replicate 40 "x" ++ ["##y"])).2.1 (by simp)).1

/-! ## Claim C6: exception handling of the per-file loops -/

/-- An exception raised while processing one file. -/
inductive PyErr where
  | err (msg : String)
deriving DecidableEq

/-- The loop of process_phot_files over the globbed files, each file given
as the outcome of reading it.  The body is wrapped in try/except pass: a
file whose processing raises is left as it was and the loop continues with
the remaining files. -/
def process_phot_files (files : List (Except PyErr (List String))) :
    List (Except PyErr (List String)) :=
  files.map (fun f =>
    match f with
    | Except.ok lines => Except.ok (processPhotLines lines)
    | Except.error e => Except.error e)

/-- The per-file transformation of clean_photometry in
wdms_data_process.py: strip hashes from line index 36 when the file has at
least 37 lines. -/
def cleanPhotLines (lines : List String) : List String :=
  lines.set 36 (lstripHash (lines.getD 36 ""))

/-- The loop of clean_photometry: no try/except around the body, so the
first file whose read raises aborts the whole loop and the exception
propagates; the result collects the cleaned files (those with at least 37
lines) in order. -/
def clean_photometry : List (Except PyErr (List String)) → Except PyErr (List (List String))
  | [] => Except.ok []
  | Except.error e :: _ => Except.error e
  | Except.ok lines :: fs =>
    match clean_photometry fs with
    | Except.error e => Except.error e
    | Except.ok rest =>
      Except.ok (if 37 ≤ lines.length then cleanPhotLines lines :: rest else rest)

/-- The per-row loop of plot_seds: the body is wrapped in try/except
continue, so a row whose processing raises is skipped and every other row
still produces its SED png. -/
def plot_seds (rows : List (Except PyErr String)) : List String :=
  rows.filterMap (fun r =>
    match r with
    | Except.ok obj => some (obj ++ "_SED.png")
    | Except.error _ => none)

/-- C6, counterexample: clean_photometry has no per-file exception
handler; with a failing read in the middle of the list the exception
propagates out of the loop (the result is that exception, not a list) and
the third file is never processed, contrary to the claim that every
per-file loop swallows exceptions and keeps going. -/
theorem c6_claim_false_clean_photometry_propagates :
    clean_photometry
        [Except.ok ["# a"], Except.error (PyErr.err "read failure"),
          Except.ok ["# b"]]
      = Except.error (PyErr.err "read failure") := by
  rfl

/-- C6, amended: process_phot_files and plot_seds swallow exceptions per
file - a failing file is skipped (left unchanged for process_phot_files)
and the remaining files are still processed - but clean_photometry has no
handler: the first failing file makes the exception propagate out of the
whole loop. -/
theorem c6_exception_handling_amended
    (xs ys : List (Except PyErr (List String)))
    (pre : List (List String)) (post : List (Except PyErr (List String)))
    (rs ss : List (Except PyErr String)) (d : PyErr) (e : PyErr) :
    process_phot_files (xs ++ Except.error d :: ys)
        = process_phot_files xs ++ Except.error d :: process_phot_files ys ∧
      plot_seds (rs ++ Except.error d :: ss) = plot_seds rs ++ plot_seds ss ∧
      clean_photometry (pre.map Except.ok ++ Except.error e :: post)
        = Except.error e := by
  refine ⟨by simp [process_phot_files], by simp [plot_seds], ?_⟩
  induction pre with
  | nil => rfl
  | cons p pre ih => simp [clean_photometry, ih]

/-! ## Python range and the VOSA exporters -/

/-- Length of the Python range from a to b with step s (zero for an empty
range; a step of zero raises in Python and is never used below). -/
def pyRangeLen (a b s : Int) : ℕ :=
  if 0 < s then ((b - a).toNat + (s.toNat - 1)) / s.toNat
  else if s < 0 then ((a - b).toNat + ((-s).toNat - 1)) / (-s).toNat
  else 0

/-- The Python range from a to b with step s, as the list of its
values. -/
def pyRange (a b s : Int) : List Int :=
  (List.range (pyRangeLen a b s)).map (fun k : ℕ => a + s * (k : Int))

/-- Indexing a Python range. -/
theorem pyRange_getElem? (a b s : Int) (k : ℕ) :
    (pyRange a b s)[k]? = if k < pyRangeLen a b s then some (a + s * (k : Int)) else none := by
  unfold pyRange
  rw [List.getElem?_map]
  by_cases h : k < pyRangeLen a b s
  · rw [List.getElem?_range h, if_pos h]
    rfl
  · rw [List.getElem?_eq_none (by simpa using Nat.le_of_not_lt h), if_neg h]
    rfl

/-- For a positive step c from 0 to n, the range length is the ceiling of
n / c. -/
theorem pyRangeLen_nat (n c : ℕ) (hc : 0 < c) :
    pyRangeLen 0 (n : Int) (c : Int) = (n + c - 1) / c := by
  unfold pyRangeLen
  have hcz : (0 : Int) < (c : Int) := by exact_mod_cast hc
  rw [if_pos hcz]
  simp only [sub_zero, Int.toNat_natCast]
  congr 1
  omega

/-- The single header line every exported VOSA file starts with (the same
string literal in ms_ascii_vosa.py and wd_ascii_vosa.py). -/
def VOSA_HEADER : String :=
  "object\tRA\tDEC\tdis\tAv\tfilter\tflux\terror\tpntopts\tobjopts"

/-- The 19-entry filter table of ms_ascii_vosa.py: magnitude column,
error column, VOSA filter name, pntopts. -/
def FILTER_COLUMNS : List (String × String × String × String) :=
  [("FUVmag", "e_FUVmag", "GALEX/GALEX.FUV", "nofit"),
   ("NUVmag", "e_NUVmag", "GALEX/GALEX.NUV", "nofit"),
   ("BPmag", "e_BPmag", "GAIA/GAIA3.Gbp", "mag"),
   ("Gmag", "e_Gmag", "GAIA/GAIA3.G", "mag"),
   ("RPmag", "e_RPmag", "GAIA/GAIA3.Grp", "mag"),
   ("Bmag", "e_Bmag", "Misc/APASS.B", "mag"),
   ("gmag_x", "e_gmag_x", "PAN-STARRS/PS1.g", "mag"),
   ("Vmag", "e_Vmag", "Misc/APASS.V", "mag"),
   ("rmag", "e_rmag", "PAN-STARRS/PS1.r", "mag"),
   ("imag", "e_imag", "PAN-STARRS/PS1.i", "mag"),
   ("zmag", "e_zmag", "PAN-STARRS/PS1.z", "mag"),
   ("ymag", "e_ymag", "PAN-STARRS/PS1.y", "mag"),
   ("Jmag", "e_Jmag", "2MASS/2MASS.H", "mag"),
   ("Hmag", "e_Hmag", "2MASS/2MASS.J", "mag"),
   ("Kmag", "e_Kmag", "2MASS/2MASS.Ks", "mag"),
   ("W1mag", "e_W1mag", "WISE/WISE.W1", "mag"),
   ("W2mag", "e_W2mag", "WISE/WISE.W2", "mag"),
   ("W3mag", "e_W3mag", "WISE/WISE.W3", "mag"),
   ("W4mag", "e_W4mag", "WISE/WISE.W4", "mag")]

/-- One catalog row as ms_ascii_noUV_VOSA consumes it.  The fixed columns
are carried as their printed form; cells maps a magnitude or error column
name to the printed form of the cell together with its pandas notna flag
(a column absent from the row yields the dashes placeholder, on which
notna is true). -/
structure CatRow where
  name : String
  raj2000 : String
  dej2000 : String
  rpgeo : String
  av : String
  cells : String → String × Bool

/-- The VOSA object-name sanitisation: spaces to underscores, then the
star character to the AST marker (the two replacements compose into one
pass because the first never produces a star). -/
def sanitizeName (s : String) : String :=
  String.mk ((s.toList.map (fun ch => if ch = ' ' then '_' else ch)).flatMap
    (fun ch => if ch = '*' then "_AST_".toList else [ch]))

/-- One output line of ms_ascii_noUV_VOSA for one row and one entry of the
filter table: when either the magnitude or the error cell is NaN the flux,
error and pntopts fields are all dashes. -/
def entryLine (row : CatRow) (fc : String × String × String × String) : String :=
  let mag := row.cells fc.1
  let err := row.cells fc.2.1
  let vals := if mag.2 && err.2 then (mag.1, err.1, fc.2.2.2) else ("---", "---", "---")
  sanitizeName row.name ++ "\t" ++ row.raj2000 ++ "\t" ++ row.dej2000 ++ "\t" ++
    row.rpgeo ++ "\t" ++ row.av ++ "\t" ++ fc.2.2.1 ++ "\t" ++ vals.1 ++ "\t" ++
    vals.2.1 ++ "\t" ++ vals.2.2 ++ "\t" ++ "---"

/-- The lines one catalog row contributes: one per filter-table entry. -/
def rowLines (row : CatRow) : List String :=
  FILTER_COLUMNS.map (entryLine row)

/-- One output file of ms_ascii_noUV_VOSA: the chunk of rows from start to
min (start + c) (length df), named start-stop.txt, one header line then
the lines of each row of the chunk. -/
def msOutFile (df : List CatRow) (c start : ℕ) : String × List String :=
  let stop := min (start + c) df.length
  (toString start ++ "-" ++ toString stop ++ ".txt",
   VOSA_HEADER :: ((df.drop start).take (stop - start)).flatMap rowLines)

/-- ms_ascii_noUV_VOSA: one file per start value of range 0 (length df)
chunk. -/
def ms_ascii_noUV_VOSA (df : List CatRow) (c : ℕ) : List (String × List String) :=
  (pyRange 0 (df.length : Int) (c : Int)).map (fun s => msOutFile df c s.toNat)

/-- Length of a flatMap whose pieces all have the same length. -/
theorem length_flatMap_const {α β : Type} (f : α → List β) (m : ℕ)
    (h : ∀ x, (f x).length = m) (l : List α) :
    (l.flatMap f).length = m * l.length := by
  induction l with
  | nil => simp
  | cons a l ih =>
    simp only [List.flatMap_cons, List.length_append, h a, ih, List.length_cons]
    ring

/-- Every row contributes one line per filter-table entry. -/
theorem rowLines_length (row : CatRow) : (rowLines row).length = 19 := by
  rfl

/-- The exporter writes the ceiling of n / c files. -/
theorem ms_ascii_len (df : List CatRow) (c : ℕ) (hc : 0 < c) :
    (ms_ascii_noUV_VOSA df c).length = (df.length + c - 1) / c := by
  unfold ms_ascii_noUV_VOSA
  rw [List.length_map]
  unfold pyRange
  rw [List.length_map, List.length_range]
  exact pyRangeLen_nat df.length c hc

/-- C7: for a chunk size c > 0 the exporter writes exactly
ceil (length df / c) files; the k-th file is the chunk starting at row
c * k, named start-stop.txt with stop = min (start + c) (length df); its
body is the header line followed by the lines of exactly the rows from
start to stop - 1, each row contributing one line per entry of the
19-entry filter table, 1 + 19 * (stop - start) lines in all. -/
theorem c7_ms_ascii_chunked_export (df : List CatRow) (c : ℕ) (hc : 0 < c) :
    (ms_ascii_noUV_VOSA df c).length = (df.length + c - 1) / c ∧
      (∀ k, (ms_ascii_noUV_VOSA df c)[k]?
          = if k < (df.length + c - 1) / c then some (msOutFile df c (c * k))
            else none) ∧
      (∀ start,
        (msOutFile df c start).1
            = toString start ++ "-" ++ toString (min (start + c) df.length) ++ ".txt" ∧
          (msOutFile df c start).2
            = VOSA_HEADER ::
                ((df.drop start).take (min (start + c) df.length - start)).flatMap rowLines ∧
          ((msOutFile df c start).2).length
            = 1 + FILTER_COLUMNS.length * (min (start + c) df.length - start)) ∧
      FILTER_COLUMNS.length = 19 ∧ (∀ row, (rowLines row).length = 19) := by
  refine ⟨ms_ascii_len df c hc, ?_, ?_, rfl, rowLines_length⟩
  · intro k
    unfold ms_ascii_noUV_VOSA
    rw [List.getElem?_map, pyRange_getElem?, pyRangeLen_nat df.length c hc]
    by_cases h : k < (df.length + c - 1) / c
    · rw [if_pos h, if_pos h]
      have hcast : ((c : Int) * (k : Int)).toNat = c * k := by
        rw [← Nat.cast_mul, Int.toNat_natCast]
      simp only [Option.map_some', zero_add, hcast]
    · rw [if_neg h, if_neg h]
      rfl
  · intro start
    refine ⟨rfl, rfl, ?_⟩
    unfold msOutFile
    simp only [List.length_cons,
      length_flatMap_const rowLines 19 rowLines_length, List.length_take,
      List.length_drop]
    have hmin : min (min (start + c) df.length - start) (df.length - start)
        = min (start + c) df.length - start := by omega
    rw [hmin]
    have h19 : FILTER_COLUMNS.length = 19 := rfl
    rw [h19]
    omega

/-- A concrete catalog row for the exporter witnesses. -/
def c7Row : CatRow :=
  ⟨"obj one", "10.0", "20.0", "100.0", "0.1", fun _ => ("12.5", true)⟩

/-- A concrete three-row catalog. -/
def c7Df : List CatRow := [c7Row, c7Row, c7Row]

/-- C7, witness: the chunked export applied to a three-row catalog with
chunk size 2 writes ceil (3 / 2) = 2 files. -/
theorem c7_ms_ascii_chunked_export_witness :
    0 < 2 ∧ (ms_ascii_noUV_VOSA c7Df 2).length = (c7Df.length + 2 - 1) / 2 :=
  ⟨by norm_num, (c7_ms_ascii_chunked_export c7Df 2 (by norm_num)).1⟩

/-! ## Claim C8: the chunk sanity checks of the exporter entry point -/

/-- main of ms_ascii_vosa.py, modelled on its decision structure: the
catalog-existence check, then the two chunk checks, in source order; only
after all three does it read the catalog and export.  An error value is a
sys.exit before any output file is written; the df argument stands for the
catalog contents that read_catalog would produce. -/
def vosaMain (catalogExists : Bool) (chunk : Int) (df : List CatRow) :
    Except String (List (String × List String)) :=
  if catalogExists = false then
    Except.error "Error: catalog not found"
  else if chunk ≤ 0 then
    Except.error "Error: --chunk must be a positive integer"
  else if 1000 < chunk then
    Except.error "Error: --chunk too large, max 1000 for VOSA compatibility"
  else
    Except.ok (ms_ascii_noUV_VOSA df chunk.toNat)

/-- C8: with an existing catalog, the entry point accepts the chunk value
iff 1 <= chunk <= 1000; out of that range it exits with one of the two
chunk error messages before reading the catalog - the outcome does not
depend on the catalog contents - and writes no output file, and in range
it proceeds to the export. -/
theorem c8_chunk_validation (chunk : Int) (df df2 : List CatRow) :
    (1 ≤ chunk ∧ chunk ≤ 1000 →
      vosaMain true chunk df = Except.ok (ms_ascii_noUV_VOSA df chunk.toNat)) ∧
      (¬(1 ≤ chunk ∧ chunk ≤ 1000) →
        (vosaMain true chunk df
            = Except.error "Error: --chunk must be a positive integer" ∨
          vosaMain true chunk df
            = Except.error "Error: --chunk too large, max 1000 for VOSA compatibility") ∧
          vosaMain true chunk df = vosaMain true chunk df2) := by
  unfold vosaMain
  constructor
  · rintro ⟨h1, h2⟩
    rw [if_neg (by simp), if_neg (by omega), if_neg (by omega)]
  · intro h
    by_cases hle : chunk ≤ 0
    · rw [if_neg (by simp), if_pos hle]
      exact ⟨Or.inl rfl, by rw [if_neg (by simp), if_pos hle]⟩
    · have hbig : 1000 < chunk := by
        rcases not_and_or.mp h with h1 | h2 <;> omega
      rw [if_neg (by simp), if_neg hle, if_pos hbig]
      exact ⟨Or.inr rfl, by rw [if_neg (by simp), if_neg hle, if_pos hbig]⟩

/-- C8, witness: a valid chunk of 500 exports, an invalid chunk of 0
exits with the positivity error independently of the catalog contents. -/
theorem c8_chunk_validation_witness :
    vosaMain true 500 c7Df = Except.ok (ms_ascii_noUV_VOSA c7Df (500 : Int).toNat) ∧
      (vosaMain true 0 c7Df
          = Except.error "Error: --chunk must be a positive integer" ∨
        vosaMain true 0 c7Df
          = Except.error "Error: --chunk too large, max 1000 for VOSA compatibility") ∧
      vosaMain true 0 c7Df = vosaMain true 0 [] := by
  refine ⟨(c8_chunk_validation 500 c7Df []).1 ⟨by norm_num, by norm_num⟩, ?_⟩
  exact (c8_chunk_validation 0 c7Df []).2 (by omega)

/-! ## Claim C9: write_batches of wd_ascii_vosa.py -/

/-- One entry produced by build_entries, carrying the printed forms that
write_batches writes into a line. -/
structure WDEntry where
  object : String
  ra : String
  dec : String
  dpc : String
  av : String
  filt : String
  flux : String
  error : String
deriving DecidableEq

/-- One output line of write_batches. -/
def wdLine (e : WDEntry) : String :=
  e.object ++ "\t" ++ e.ra ++ "\t" ++ e.dec ++ "\t" ++ e.dpc ++ "\t" ++
    e.av ++ "\t" ++ e.filt ++ "\t" ++ e.flux ++ "\t" ++ e.error ++
    "\t" ++ "erg" ++ "\t" ++ "---"

/-- The pandas unique of the object column: the distinct objects in order
of first appearance. -/
def uniqueObjs (entries : List WDEntry) : List String :=
  entries.foldl (fun acc e => if e.object ∈ acc then acc else acc ++ [e.object]) []

/-- The chunk slices unique_objs i : i + chunk for i in
range 0 (length unique_objs) chunk, exactly as write_batches builds
them. -/
def chunksOfPy (xs : List String) (chunk : Int) : List (List String) :=
  (pyRange 0 (xs.length : Int) chunk).map
    (fun i => (xs.drop i.toNat).take ((i + chunk).toNat - i.toNat))

/-- write_batches: one file per chunk of objects, numbered from 1, each
file holding the header line and the lines of every entry whose object
lies in the chunk, in entry order. -/
def write_batches (entries : List WDEntry) (chunk : Int) : List (String × List String) :=
  (chunksOfPy (uniqueObjs entries) chunk).mapIdx
    (fun idx subset =>
      (toString (idx + 1) ++ ".txt",
       VOSA_HEADER :: (entries.filter (fun e => subset.contains e.object)).map wdLine))

/-- The accumulator fold behind uniqueObjs keeps a duplicate-free list
holding exactly the accumulated and the seen objects. -/
theorem uniqueObjs_fold_spec (l : List WDEntry) :
    ∀ acc : List String, acc.Nodup →
      ((l.foldl (fun acc e => if e.object ∈ acc then acc else acc ++ [e.object]) acc).Nodup ∧
        ∀ x, x ∈ l.foldl (fun acc e => if e.object ∈ acc then acc else acc ++ [e.object]) acc
          ↔ x ∈ acc ∨ x ∈ l.map WDEntry.object) := by
  induction l with
  | nil => intro acc hacc; simpa using hacc
  | cons e l ih =>
    intro acc hacc
    by_cases h : e.object ∈ acc
    · have hrec := ih acc hacc
      rw [List.foldl_cons, if_pos h]
      refine ⟨hrec.1, fun x => ?_⟩
      rw [hrec.2 x, List.map_cons]
      constructor
      · rintro (hx | hx)
        · exact Or.inl hx
        · exact Or.inr (List.mem_cons_of_mem _ hx)
      · rintro (hx | hx)
        · exact Or.inl hx
        · rcases List.mem_cons.mp hx with rfl | hx2
          · exact Or.inl h
          · exact Or.inr hx2
    · have hacc2 : (acc ++ [e.object]).Nodup := by
        rw [List.nodup_append]
        exact ⟨hacc, List.nodup_singleton _, by simpa using h⟩
      have hrec := ih (acc ++ [e.object]) hacc2
      rw [List.foldl_cons, if_neg h]
      refine ⟨hrec.1, fun x => ?_⟩
      rw [hrec.2 x, List.map_cons]
      constructor
      · rintro (hx | hx)
        · rcases List.mem_append.mp hx with hx2 | hx2
          · exact Or.inl hx2
          · exact Or.inr (by rw [List.mem_singleton.mp hx2]; exact List.mem_cons_self _ _)
        · exact Or.inr (List.mem_cons_of_mem _ hx)
      · rintro (hx | hx)
        · exact Or.inl (List.mem_append.mpr (Or.inl hx))
        · rcases List.mem_cons.mp hx with rfl | hx2
          · exact Or.inl (List.mem_append.mpr (Or.inr (by simp)))
          · exact Or.inr hx2

/-- uniqueObjs is duplicate-free. -/
theorem uniqueObjs_nodup (entries : List WDEntry) : (uniqueObjs entries).Nodup :=
  (uniqueObjs_fold_spec entries [] List.nodup_nil).1

/-- uniqueObjs holds exactly the objects appearing among the entries. -/
theorem uniqueObjs_mem (entries : List WDEntry) (x : String) :
    x ∈ uniqueObjs entries ↔ x ∈ entries.map WDEntry.object := by
  have := ((uniqueObjs_fold_spec entries [] List.nodup_nil).2 x)
  simpa using this

/-- Reference chunking: first ct elements, then the chunks of the
rest. -/
def chunksRec {α : Type} : ℕ → List α → List (List α)
  | _, [] => []
  | 0, _ :: _ => []
  | ct + 1, x :: xs => ((x :: xs).take (ct + 1)) :: chunksRec (ct + 1) (xs.drop ct)
termination_by ct l => l.length
decreasing_by simp [List.length_drop]; omega

/-- Unfolding of chunksRec on a nonempty list for a positive chunk. -/
theorem chunksRec_cons {α : Type} (ct : ℕ) (hc : 1 ≤ ct) (x : α) (xs : List α) :
    chunksRec ct (x :: xs) = ((x :: xs).take ct) :: chunksRec ct ((x :: xs).drop ct) := by
  rcases ct with _ | ct
  · omega
  · rw [chunksRec]
    rfl

/-- The chunks concatenate back to the original list. -/
theorem chunksRec_flatten {α : Type} (ct : ℕ) (hc : 1 ≤ ct) (xs : List α) :
    (chunksRec ct xs).flatten = xs := by
  generalize hn : xs.length = n
  induction n using Nat.strong_induction_on generalizing xs with
  | _ n ih =>
    cases xs with
    | nil => cases ct <;> simp [chunksRec]
    | cons x l =>
      rw [chunksRec_cons ct hc]
      have hlt : ((x :: l).drop ct).length < n := by
        rw [← hn]
        simp only [List.length_drop, List.length_cons]
        omega
      rw [List.flatten_cons, ih _ hlt _ rfl, List.take_append_drop]

/-- Every chunk has at most ct elements. -/
theorem chunksRec_length_le {α : Type} (ct : ℕ) (hc : 1 ≤ ct) (xs : List α) :
    ∀ s ∈ chunksRec ct xs, s.length ≤ ct := by
  generalize hn : xs.length = n
  induction n using Nat.strong_induction_on generalizing xs with
  | _ n ih =>
    cases xs with
    | nil =>
      cases ct <;> simp [chunksRec]
    | cons x l =>
      rw [chunksRec_cons ct hc]
      intro s hs
      rcases List.mem_cons.mp hs with rfl | hs2
      · rw [List.length_take]
        omega
      · have hlt : ((x :: l).drop ct).length < n := by
          rw [← hn]
          simp only [List.length_drop, List.length_cons]
          omega
        exact ih _ hlt _ rfl s hs2

/-- The Python slice chunking, with the index arithmetic already carried
out over the naturals. -/
def chunksOfPyNat (xs : List String) (ct : ℕ) : List (List String) :=
  (List.range ((xs.length + ct - 1) / ct)).map (fun k => (xs.drop (ct * k)).take ct)

/-- For a positive chunk the Python slice chunking is the natural-number
one. -/
theorem chunksOfPy_eq_nat (xs : List String) (ct : ℕ) (hc : 1 ≤ ct) :
    chunksOfPy xs (ct : Int) = chunksOfPyNat xs ct := by
  unfold chunksOfPy chunksOfPyNat pyRange
  rw [pyRangeLen_nat xs.length ct hc, List.map_map]
  refine List.map_congr_left (fun k hk => ?_)
  simp only [Function.comp_apply, zero_add]
  have h1 : ((ct : Int) * (k : Int)).toNat = ct * k := by
    rw [← Nat.cast_mul, Int.toNat_natCast]
  have h2 : ((ct : Int) * (k : Int) + (ct : Int)).toNat = ct * k + ct := by
    rw [show ((ct : Int) * (k : Int) + (ct : Int)) = (((ct * k + ct : ℕ)) : Int) by
      push_cast; ring, Int.toNat_natCast]
  rw [h1, h2]
  congr 1
  omega

/-- The ceiling recursion behind the chunk count. -/
theorem ceil_div_step (n ct : ℕ) (h1 : 1 ≤ n) (hc : 1 ≤ ct) :
    (n + ct - 1) / ct = ((n - ct) + ct - 1) / ct + 1 := by
  rcases le_or_lt n ct with hle | hlt
  · have e1 : n + ct - 1 = (n - 1) + ct := by omega
    have e2 : n - ct = 0 := by omega
    rw [e1, Nat.add_div_right _ (by omega), e2,
      Nat.div_eq_of_lt (by omega), Nat.div_eq_of_lt (by omega)]
  · have e1 : n + ct - 1 = (n - 1) + ct := by omega
    have e2 : (n - ct) + ct - 1 = n - 1 := by omega
    rw [e1, e2, Nat.add_div_right _ (by omega)]

/-- The Python slice chunking agrees with the reference chunking. -/
theorem chunksOfPyNat_eq_rec (ct : ℕ) (hc : 1 ≤ ct) (xs : List String) :
    chunksOfPyNat xs ct = chunksRec ct xs := by
  generalize hn : xs.length = n
  induction n using Nat.strong_induction_on generalizing xs with
  | _ n ih =>
    cases xs with
    | nil =>
      unfold chunksOfPyNat
      have h0 : (([] : List String).length + ct - 1) / ct = 0 := by
        simp only [List.length_nil]
        exact Nat.div_eq_of_lt (by omega)
      rw [h0]
      cases ct <;> simp [chunksRec]
    | cons x l =>
      unfold chunksOfPyNat
      rw [ceil_div_step (x :: l).length ct (by simp) hc,
        List.range_succ_eq_map, List.map_cons, List.map_map]
      rw [chunksRec_cons ct hc]
      have hlt : ((x :: l).drop ct).length < n := by
        rw [← hn]
        simp only [List.length_drop, List.length_cons]
        omega
      have htail : List.map ((fun k => ((x :: l).drop (ct * k)).take ct) ∘ Nat.succ)
          (List.range ((((x :: l).length - ct) + ct - 1) / ct))
          = chunksRec ct ((x :: l).drop ct) := by
        rw [← ih _ hlt ((x :: l).drop ct) rfl]
        unfold chunksOfPyNat
        rw [List.length_drop]
        refine List.map_congr_left (fun k hk => ?_)
        simp only [Function.comp_apply]
        rw [List.drop_drop]
        have harith : ct * Nat.succ k = ct + ct * k := by
          rw [Nat.mul_succ]
          omega
        rw [harith]
      rw [htail]
      simp

/-- A concrete entry used for the C9 counterexample. -/
def c9Entry : WDEntry :=
  ⟨"J0002", "1.0", "2.0", "3.0", "0.0", "GALEX/GALEX.FUV", "0.5", "0.1"⟩

/-- C9, counterexample: the claim quantifies over every chunk size, but
for chunk -1 (reachable, the chunk is read with int from user input and
never validated) range 0 1 (-1) is empty, write_batches writes no batch
file at all, and the object J0002 present in the entries appears in no
batch file - not in exactly one. -/
theorem c9_claim_false_at_negative_chunk :
    uniqueObjs [c9Entry] = ["J0002"] ∧ write_batches [c9Entry] (-1) = [] := by
  constructor
  · rfl
  · rfl

/-- A second concrete entry, a second row of the same object, and an
entry of another object, for the C9 witness. -/
def c9Entries : List WDEntry :=
  [c9Entry,
   ⟨"J0002", "1.0", "2.0", "3.0", "0.0", "GALEX/GALEX.NUV", "0.4", "0.1"⟩,
   ⟨"J0003", "4.0", "5.0", "6.0", "0.0", "GALEX/GALEX.FUV", "0.3", "0.1"⟩]

/-- C9, amended: for every chunk size of at least 1, write_batches
partitions objects rather than rows: the first-appearance object list is
duplicate-free and holds exactly the objects of the entries, the chunks
concatenate back to it (so every object lies in exactly one chunk - the
uniqueness is stated below), each chunk holds at most chunk distinct
objects, and the file of a chunk holds exactly the rows of the entries
whose object lies in that chunk, so all rows of one object go to the one
file of its chunk. -/
theorem c9_write_batches_partitions (entries : List WDEntry) (chunk : Int)
    (hc : 1 ≤ chunk) :
    (uniqueObjs entries).Nodup ∧
      (∀ x, x ∈ uniqueObjs entries ↔ x ∈ entries.map WDEntry.object) ∧
      (chunksOfPy (uniqueObjs entries) chunk).flatten = uniqueObjs entries ∧
      (∀ s ∈ chunksOfPy (uniqueObjs entries) chunk, s.length ≤ chunk.toNat) ∧
      (∀ obj ∈ uniqueObjs entries,
        ∃! s, s ∈ chunksOfPy (uniqueObjs entries) chunk ∧ obj ∈ s) ∧
      write_batches entries chunk
        = (chunksOfPy (uniqueObjs entries) chunk).mapIdx
            (fun idx subset =>
              (toString (idx + 1) ++ ".txt",
               VOSA_HEADER ::
                 (entries.filter (fun e => subset.contains e.object)).map wdLine)) := by
  have hctpos : 1 ≤ chunk.toNat := by omega
  have hcast : ((chunk.toNat : ℕ) : Int) = chunk := Int.toNat_of_nonneg (by omega)
  have hchunks : chunksOfPy (uniqueObjs entries) chunk
      = chunksRec chunk.toNat (uniqueObjs entries) := by
    conv_lhs => rw [← hcast]
    rw [chunksOfPy_eq_nat _ _ hctpos, chunksOfPyNat_eq_rec _ hctpos]
  have hnod := uniqueObjs_nodup entries
  have hflat : (chunksOfPy (uniqueObjs entries) chunk).flatten = uniqueObjs entries := by
    rw [hchunks]
    exact chunksRec_flatten _ hctpos _
  refine ⟨hnod, uniqueObjs_mem entries, hflat, ?_, ?_, rfl⟩
  · intro s hs
    rw [hchunks] at hs
    exact chunksRec_length_le _ hctpos _ s hs
  · intro obj hobj
    have hflatnod : (chunksOfPy (uniqueObjs entries) chunk).flatten.Nodup := by
      rw [hflat]
      exact hnod
    have hpair := (List.nodup_flatten.mp hflatnod).2
    have hex : ∃ s ∈ chunksOfPy (uniqueObjs entries) chunk, obj ∈ s := by
      rw [← hflat] at hobj
      exact List.mem_flatten.mp hobj
    rcases hex with ⟨s, hs, hmem⟩
    refine ⟨s, ⟨hs, hmem⟩, ?_⟩
    rintro s2 ⟨hs2, hmem2⟩
    by_contra hne
    have hdisj := List.Pairwise.forall
      (fun l1 l2 (hd : List.Disjoint l1 l2) => List.Disjoint.symm hd) hpair hs2 hs hne
    exact hdisj hmem2 hmem

/-- C9, witness: the partition statement applied to three concrete
entries of two objects with chunk size 1: both objects end up in the
chunks, which concatenate to the object list. -/
theorem c9_write_batches_partitions_witness :
    (1 : Int) ≤ 1 ∧
      (chunksOfPy (uniqueObjs c9Entries) 1).flatten = uniqueObjs c9Entries := by
  exact ⟨le_refl 1, (c9_write_batches_partitions c9Entries 1 (le_refl 1)).2.2.1⟩

/-! ## Claim C10: dedup_theoretical of wdms_data_process.py -/

/-- Try to match the regular expression a[+-]digits.digits at the head of
the character list; on success return the characters after the match.
The greedy digit runs are deterministic here: a shorter run would leave a
digit where the dot must sit. -/
def matchVariant (l : List Char) : Option (List Char) :=
  match l with
  | 'a' :: sgn :: rest =>
    if sgn = '+' ∨ sgn = '-' then
      match rest.span (fun c => c.isDigit) with
      | ([], _) => none
      | (_ :: _, rest2) =>
        match rest2 with
        | '.' :: rest3 =>
          match rest3.span (fun c => c.isDigit) with
          | ([], _) => none
          | (_ :: _, rest4) => some rest4
        | _ => none
    else none
  | _ => none

/-- One pass of re.sub with the empty replacement: scan left to right,
delete each leftmost non-overlapping match, keep other characters.  The
fuel is the length of the list; every step consumes at least one
character, so it never runs out on the initial call. -/
def regexSubAux : ℕ → List Char → List Char
  | 0, l => l
  | _ + 1, [] => []
  | fuel + 1, c :: rest =>
    match matchVariant (c :: rest) with
    | some r => regexSubAux fuel r
    | none => c :: regexSubAux fuel rest

/-- re.sub of the variant pattern a[+-]digits.digits by the empty string,
over a filename. -/
def cleanedName (f : String) : String :=
  String.mk (regexSubAux f.toList.length f.toList)

/-- The fixed suffix the dedup loop filters filenames by. -/
def hasSpecSuffix (f : String) : Bool :=
  List.isSuffixOf ".BT-NextGen.7.dat.txt".toList f.toList

/-- Append a filename to the group of its cleaned name, keeping the
first-appearance key order of the Python defaultdict. -/
def addToGroups (gs : List (String × List String)) (key f : String) :
    List (String × List String) :=
  if gs.any (fun g => g.1 == key) then
    gs.map (fun g => if g.1 == key then (g.1, g.2 ++ [f]) else g)
  else gs ++ [(key, [f])]

/-- The unique dictionary of dedup_theoretical: filenames with the
spectrum suffix grouped by their cleaned name, in listdir order. -/
def buildGroups (listing : List String) : List (String × List String) :=
  listing.foldl
    (fun gs f => if hasSpecSuffix f then addToGroups gs (cleanedName f) f else gs) []

/-- os.remove of one name from a directory of names. -/
def dirRemove (d : List String) (f : String) : List String :=
  d.filter (fun x => !(x == f))

/-- os.rename src to dst in a directory of names; an existing dst is
silently replaced, as on POSIX. -/
def dirRename (d : List String) (src dst : String) : List String :=
  (d.filter (fun x => !(x == src) && !(x == dst))) ++ [dst]

/-- dedup_theoretical: for every group, keep the first listed original,
renaming it to the cleaned name when they differ, and remove every other
original of the group. -/
def dedup_theoretical (listing : List String) : List String :=
  (buildGroups listing).foldl
    (fun d g =>
      match g with
      | (_, []) => d
      | (key, keep :: dups) =>
        let d1 := if keep == key then d else dirRename d keep key
        dups.foldl (fun dd dup => dirRemove dd dup) d1)
    listing

/-- The base spectrum name and its a+0.4 variant. -/
def wdmsBase : String := "lte030-5.0-0.0.BT-NextGen.7.dat.txt"

/-- A variant filename whose cleaned name is wdmsBase. -/
def wdmsVariant : String := "lte030-5.0-0.0a+0.4.BT-NextGen.7.dat.txt"

/-- C10: with the base file and its variant both present, the outcome of
dedup_theoretical depends on the listdir order, and in the order variant
first it deletes the whole set: both names fall into one group keyed by
the base name; the variant, listed first, is kept and renamed onto the
base file (silently replacing it), and the base name is then removed as a
duplicate, leaving no file at all.  The claim - and the docstring, which
promises to keep one spectrum per set - requires exactly one surviving
file per deduplicated name, so this run contradicts both, and the
second-run no-op part of the claim is moot for the set that vanished. -/
theorem c10_dedup_can_delete_whole_set :
    dedup_theoretical [wdmsVariant, wdmsBase] = [] ∧
      dedup_theoretical [wdmsBase, wdmsVariant] = [wdmsBase] := by
  constructor
  · rfl
  · rfl
